import Mathlib

/-!
Verification development for `whl_can.py` (wheelos-tools/whl-can): a keyboard
controller that accumulates a vehicle control command (speed, steering angle)
from key events and exposes it, under a lock, to a publisher loop.

The Python floats `speed` / `steering_angle` are embedded as exact rationals
(`ℚ`); the module constants and all state updates are translated directly
from the source.
-/

namespace WhlCan

/-- `SPEED_DELTA = 0.1` (whl_can.py line 28). -/
def SPEED_DELTA : ℚ := 1 / 10

/-- `STEERING_ANGLE_DELTA = 1` (whl_can.py line 29). -/
def STEERING_ANGLE_DELTA : ℚ := 1

/-- The `ControlCommand` protobuf message fields the program touches:
`speed` and `steering_angle`. A freshly constructed message has both fields
at their protobuf default `0`. -/
structure ControlCommand where
  speed : ℚ
  steering_angle : ℚ
  deriving DecidableEq, Repr

/-- State of a `KeyboardController` instance, as set up by `__init__`
(whl_can.py lines 35-40): the run flag, the protobuf message object, and the
two accumulator fields. The `threading.Lock` has no sequential content; it is
modelled in the interleaved thread model further below. -/
structure KeyboardController where
  running : Bool
  control_cmd_msg : ControlCommand
  speed : ℚ
  steering_angle : ℚ
  deriving DecidableEq, Repr

/-- `__init__`: `running = True`, fresh message, `speed = 0`,
`steering_angle = 0`. -/
def initController : KeyboardController :=
  { running := true
    control_cmd_msg := { speed := 0, steering_angle := 0 }
    speed := 0
    steering_angle := 0 }

/-- `move_forward` (lines 88-91): `self.speed += SPEED_DELTA`. -/
def KeyboardController.move_forward (self : KeyboardController) : KeyboardController :=
  { self with speed := self.speed + SPEED_DELTA }

/-- `move_backward` (lines 93-96): `self.speed -= SPEED_DELTA`. -/
def KeyboardController.move_backward (self : KeyboardController) : KeyboardController :=
  { self with speed := self.speed - SPEED_DELTA }

/-- `turn_left` (lines 98-102): `self.steering_angle += STEERING_ANGLE_DELTA`. -/
def KeyboardController.turn_left (self : KeyboardController) : KeyboardController :=
  { self with steering_angle := self.steering_angle + STEERING_ANGLE_DELTA }

/-- `turn_right` (lines 104-108): `self.steering_angle -= STEERING_ANGLE_DELTA`. -/
def KeyboardController.turn_right (self : KeyboardController) : KeyboardController :=
  { self with steering_angle := self.steering_angle - STEERING_ANGLE_DELTA }

/-- The key dispatch table `self.control_map` (lines 43-48): `"w"`, `"s"`,
`"a"`, `"d"` map to the four handlers; lookup of any other key misses. -/
def control_map (key : String) : Option (KeyboardController → KeyboardController) :=
  if key = "w" then some KeyboardController.move_forward
  else if key = "s" then some KeyboardController.move_backward
  else if key = "a" then some KeyboardController.turn_left
  else if key = "d" then some KeyboardController.turn_right
  else none

/-- `stop` (lines 63-67): sets `self.running = False` under the lock. -/
def KeyboardController.stop (self : KeyboardController) : KeyboardController :=
  { self with running := false }

/-- `fill_control_cmd` (lines 82-86): copies the accumulator fields into the
protobuf message under the lock. -/
def KeyboardController.fill_control_cmd (self : KeyboardController) : KeyboardController :=
  { self with
      control_cmd_msg :=
        { speed := self.speed, steering_angle := self.steering_angle } }

/-- Event types delivered by `keyboard.read_event()`:
`keyboard.KEY_DOWN` / `keyboard.KEY_UP`. -/
inductive KeyEventType where
  | key_down
  | key_up
  deriving DecidableEq, Repr

/-- A keyboard event: its type and symbolic key name (`event.name`). -/
structure KeyEvent where
  event_type : KeyEventType
  name : String
  deriving DecidableEq, Repr

/-- Shorthand for a key-down event. -/
def keyDown (k : String) : KeyEvent := { event_type := .key_down, name := k }

/-- One iteration body of `_listen_keyboard` (lines 72-80), given the event
read: returns the updated controller together with `true` when the loop
continues and `false` on `break`.  On a key-down of `"esc"` it calls `stop()`
and breaks (skipping `fill_control_cmd`); on a mapped key it runs the handler
under the lock; every non-breaking iteration ends with `fill_control_cmd()`. -/
def listen_body (self : KeyboardController) (event : KeyEvent) :
    KeyboardController × Bool :=
  if event.event_type = KeyEventType.key_down then
    if event.name = "esc" then (self.stop, false)
    else
      match control_map event.name with
      | some handler => ((handler self).fill_control_cmd, true)
      | none => (self.fill_control_cmd, true)
  else (self.fill_control_cmd, true)

/-- The `while self.running` loop of `_listen_keyboard` (lines 69-80), run
over a finite list of incoming events: the loop condition is re-checked
before each event is read, and `break` abandons the remaining events. -/
def listen_keyboard (self : KeyboardController) :
    List KeyEvent → KeyboardController
  | [] => self
  | event :: rest =>
    if self.running then
      match listen_body self event with
      | (s, true) => listen_keyboard s rest
      | (s, false) => s
    else self

/-- In Python, `get_control_cmd` (lines 53-56) executes
`with self.lock: return self.control_cmd_msg`: it returns the single live
message object itself, not a copy.  A reference to that object is modelled as
a token whose dereference reads the object's fields from whatever the
controller state is at observation time. -/
inductive MsgRef where
  | control_cmd_msg
  deriving DecidableEq, Repr

/-- Dereferencing the message reference in a given controller state. -/
def MsgRef.deref : MsgRef → KeyboardController → ControlCommand :=
  fun _ s => s.control_cmd_msg

/-- `get_control_cmd`: returns (a reference to) the latest control command
message; the controller state is unchanged. -/
def KeyboardController.get_control_cmd (self : KeyboardController) :
    MsgRef × KeyboardController :=
  (MsgRef.control_cmd_msg, self)

/-! ### Basic lemmas about the loop body and the event loop -/

lemma control_map_running {k : String} {f : KeyboardController → KeyboardController}
    (hk : control_map k = some f) (s : KeyboardController) :
    (f s).running = s.running := by
  unfold control_map at hk
  split_ifs at hk <;>
    first
      | exact Option.noConfusion hk
      | (injection hk with hk; subst hk; rfl)

lemma listen_body_esc (s : KeyboardController) :
    listen_body s (keyDown "esc") = (s.stop, false) := rfl

lemma listen_body_mapped {k : String} {f : KeyboardController → KeyboardController}
    (hk : control_map k = some f) (s : KeyboardController) :
    listen_body s (keyDown k) = ((f s).fill_control_cmd, true) := by
  have hesc : k ≠ "esc" := by
    intro h
    rw [h] at hk
    simp [control_map] at hk
  simp [listen_body, keyDown, hesc, hk]

/-- Each step of the loop body either breaks with `stop()` applied (the
`"esc"` branch) or continues with `fill_control_cmd` applied last, the run
flag untouched. -/
lemma listen_body_cases (s : KeyboardController) (e : KeyEvent) :
    listen_body s e = (s.stop, false) ∨
    ∃ t : KeyboardController, listen_body s e = (t.fill_control_cmd, true) ∧
      t.running = s.running := by
  unfold listen_body
  by_cases h1 : e.event_type = KeyEventType.key_down
  · by_cases h2 : e.name = "esc"
    · simp [h1, h2]
    · cases hc : control_map e.name with
      | none => exact Or.inr ⟨s, by simp [h1, h2, hc], rfl⟩
      | some f =>
        exact Or.inr ⟨f s, by simp [h1, h2, hc], control_map_running hc s⟩
  · exact Or.inr ⟨s, by simp [h1], rfl⟩

lemma fill_running (s : KeyboardController) :
    s.fill_control_cmd.running = s.running := rfl

lemma stop_running (s : KeyboardController) : s.stop.running = false := rfl

lemma listen_keyboard_stopped {s : KeyboardController} (h : s.running = false)
    (es : List KeyEvent) : listen_keyboard s es = s := by
  cases es with
  | nil => rfl
  | cons e rest => simp [listen_keyboard, h]

lemma listen_keyboard_append (s : KeyboardController) (l1 l2 : List KeyEvent) :
    listen_keyboard s (l1 ++ l2) =
      listen_keyboard (listen_keyboard s l1) l2 := by
  induction l1 generalizing s with
  | nil => rfl
  | cons e rest ih =>
    cases hr : s.running with
    | false =>
      simp [listen_keyboard_stopped hr]
    | true =>
      rcases listen_body_cases s e with h | ⟨t, h, ht⟩
      · rw [List.cons_append]
        simp only [listen_keyboard, hr, if_true, h]
        rw [listen_keyboard_stopped (stop_running s)]
      · rw [List.cons_append]
        simp only [listen_keyboard, hr, if_true, h]
        exact ih _

/-- Running the loop over `n` presses of one mapped key accumulates the
handler's per-press deltas linearly and keeps the run flag up. -/
lemma listen_keyboard_replicate {k : String}
    {f : KeyboardController → KeyboardController} (hk : control_map k = some f)
    (ds da : ℚ)
    (hf : ∀ s : KeyboardController, (f s).speed = s.speed + ds ∧
      (f s).steering_angle = s.steering_angle + da ∧ (f s).running = s.running)
    (n : ℕ) :
    ∀ s : KeyboardController, s.running = true →
      (listen_keyboard s (List.replicate n (keyDown k))).speed = s.speed + n * ds ∧
      (listen_keyboard s (List.replicate n (keyDown k))).steering_angle =
        s.steering_angle + n * da ∧
      (listen_keyboard s (List.replicate n (keyDown k))).running = true := by
  induction n with
  | zero =>
    intro s hs
    simp [listen_keyboard, hs]
  | succ n ih =>
    intro s hs
    rw [List.replicate_succ]
    simp only [listen_keyboard, hs, if_true, listen_body_mapped hk]
    obtain ⟨hfs, hfa, hfr⟩ := hf s
    obtain ⟨h1, h2, h3⟩ := ih (f s).fill_control_cmd
      (by rw [fill_running, hfr, hs])
    refine ⟨?_, ?_, h3⟩
    · rw [h1, show (f s).fill_control_cmd.speed = (f s).speed from rfl, hfs]
      push_cast
      ring
    · rw [h2,
        show (f s).fill_control_cmd.steering_angle = (f s).steering_angle from rfl,
        hfa]
      push_cast
      ring

lemma move_forward_fields (s : KeyboardController) :
    s.move_forward.speed = s.speed + SPEED_DELTA ∧
      s.move_forward.steering_angle = s.steering_angle + 0 ∧
      s.move_forward.running = s.running := by
  refine ⟨rfl, ?_, rfl⟩
  simp [KeyboardController.move_forward]

lemma move_backward_fields (s : KeyboardController) :
    s.move_backward.speed = s.speed + -SPEED_DELTA ∧
      s.move_backward.steering_angle = s.steering_angle + 0 ∧
      s.move_backward.running = s.running := by
  refine ⟨?_, ?_, rfl⟩ <;> simp [KeyboardController.move_backward, sub_eq_add_neg]

lemma turn_left_fields (s : KeyboardController) :
    s.turn_left.speed = s.speed + 0 ∧
      s.turn_left.steering_angle = s.steering_angle + STEERING_ANGLE_DELTA ∧
      s.turn_left.running = s.running := by
  refine ⟨?_, rfl, rfl⟩
  simp [KeyboardController.turn_left]

lemma turn_right_fields (s : KeyboardController) :
    s.turn_right.speed = s.speed + 0 ∧
      s.turn_right.steering_angle = s.steering_angle + -STEERING_ANGLE_DELTA ∧
      s.turn_right.running = s.running := by
  refine ⟨?_, ?_, rfl⟩ <;> simp [KeyboardController.turn_right, sub_eq_add_neg]

/-- Unfolding one loop iteration on a mapped key-down while running. -/
lemma listen_keyboard_cons_mapped {k : String}
    {f : KeyboardController → KeyboardController} (hk : control_map k = some f)
    {s : KeyboardController} (hs : s.running = true) (es : List KeyEvent) :
    listen_keyboard s (keyDown k :: es) =
      listen_keyboard ((f s).fill_control_cmd) es := by
  simp only [listen_keyboard, hs, if_true, listen_body_mapped hk]

/-- The protobuf message is fresh: its fields equal the accumulator fields. -/
def MsgFresh (s : KeyboardController) : Prop :=
  s.control_cmd_msg.speed = s.speed ∧
  s.control_cmd_msg.steering_angle = s.steering_angle

lemma fill_msgFresh (s : KeyboardController) : MsgFresh s.fill_control_cmd :=
  ⟨rfl, rfl⟩

lemma initController_msgFresh : MsgFresh initController := ⟨rfl, rfl⟩

/-- Freshness of the message is preserved across any run of the event loop:
every non-breaking iteration refills the message, the breaking iteration
leaves both message and accumulator untouched. -/
lemma listen_keyboard_msgFresh {s : KeyboardController} (hs : MsgFresh s)
    (es : List KeyEvent) : MsgFresh (listen_keyboard s es) := by
  induction es generalizing s with
  | nil => exact hs
  | cons e rest ih =>
    cases hr : s.running with
    | false => rw [listen_keyboard_stopped hr]; exact hs
    | true =>
      rcases listen_body_cases s e with h | ⟨t, h, _⟩
      · simp only [listen_keyboard, hr, if_true, h]
        exact hs
      · simp only [listen_keyboard, hr, if_true, h]
        exact ih (fill_msgFresh t)

/-! ### Interleaved two-thread model

`start()` spawns `_listen_keyboard` on a daemon thread while `__main__` runs
the publish loop; both touch the shared fields guarded by `self.lock`.  The
model below interleaves the two threads at the granularity of single field
accesses, with explicit lock acquisition (blocking while the lock is held)
and release, following the source line by line. -/

namespace Threads

/-- The two threads of the program: the keyboard listener spawned by
`start()` (line 60) and the main publish loop (lines 119-123). -/
inductive Tid where
  | listener
  | publisher
  deriving DecidableEq, Repr

/-- The shared memory of the two threads: the accumulator fields, the two
message fields, the run flag and the single `threading.Lock` (`none` =
free).  `committed` and `fills` are ghost history variables: `committed`
records the `(speed, steering_angle)` pair written by the most recently
completed `fill_control_cmd` and `fills` the list of all such pairs, newest
first (both start from the protobuf default pair, the message's initial
content); they are updated only together with the second field write of a
fill. -/
structure Shared where
  speed : ℚ
  steering_angle : ℚ
  msg_speed : ℚ
  msg_steering_angle : ℚ
  running : Bool
  lock : Option Tid
  committed : ℚ × ℚ
  fills : List (ℚ × ℚ)
  deriving DecidableEq, Repr

/-- Program points of the listener thread `_listen_keyboard`. -/
inductive LLoc where
  | ready                  -- line 71: about to test the flag / read an event
  | toStop                 -- "esc" key-down read: about to acquire in stop()
  | inStop                 -- holding the lock: about to clear the flag (line 66)
  | stopRel                -- about to release the stop() lock
  | toHandler (k : String) -- mapped key-down read: about to acquire (line 78)
  | inHandler (k : String) -- holding the lock: about to run the handler (line 79)
  | handlerRel             -- about to release the handler lock
  | toFill                 -- about to acquire in fill_control_cmd (line 84)
  | fillA                  -- holding: about to write msg.speed (line 85)
  | fillB                  -- holding: about to write msg.steering_angle (line 86)
  | fillRel                -- about to release the fill lock
  | lDone                  -- loop exited
  deriving DecidableEq, Repr

/-- Program points of the publisher loop (lines 119-123).  The lock-held
region of `get_control_cmd` (lines 55-56) contains only
`return self.control_cmd_msg`: the call hands back a reference to the live
message and the `with` block releases the lock as it returns.  The fields of
`cmd` are read only afterwards, inside `writer.write(cmd)` (line 123), with
the lock no longer held; the two register fields of `Config` record those
unlocked reads. -/
inductive PLoc where
  | pReady  -- line 120: about to test the flag
  | pAcqd   -- holding the lock inside get_control_cmd (line 56)
  | pWrite1 -- lock released: about to read cmd.speed in writer.write
  | pWrite2 -- unlocked: cmd.speed read, about to read cmd.steering_angle
  | pDone
  deriving DecidableEq, Repr

/-- A configuration of the interleaved system. -/
structure Config where
  sh : Shared
  lloc : LLoc
  ploc : PLoc
  reg_speed : ℚ
  reg_steering_angle : ℚ
  deriving DecidableEq, Repr

/-- Effect of `self.control_map[k]()` on the shared fields (lines 88-108):
each handler touches exactly one accumulator field. -/
def applyKey (k : String) (sh : Shared) : Shared :=
  if k = "w" then { sh with speed := sh.speed + SPEED_DELTA }
  else if k = "s" then { sh with speed := sh.speed - SPEED_DELTA }
  else if k = "a" then
    { sh with steering_angle := sh.steering_angle + STEERING_ANGLE_DELTA }
  else if k = "d" then
    { sh with steering_angle := sh.steering_angle - STEERING_ANGLE_DELTA }
  else sh

/-- The keys of `control_map`. -/
def mappedKeys : List String := ["w", "s", "a", "d"]

/-- One interleaved atomic step of either thread.  Listener steps follow
`_listen_keyboard` / `stop` / `fill_control_cmd`; the key delivered by the
blocking `keyboard.read_event()` is nondeterministic.  Publisher steps
follow the `__main__` loop: `get_control_cmd` acquires the lock, returns
the live-message reference and releases; the field reads of the returned
`cmd` happen in `writer.write(cmd)` after the release, with no lock
requirement.  An acquisition step fires only when the lock is free. -/
inductive Step : Config → Config → Prop where
  | l_read_esc (c : Config) (h : c.lloc = .ready) (hr : c.sh.running = true) :
      Step c { c with lloc := .toStop }
  | l_read_mapped (c : Config) (k : String) (h : c.lloc = .ready)
      (hr : c.sh.running = true) (hk : k ∈ mappedKeys) :
      Step c { c with lloc := .toHandler k }
  | l_read_other (c : Config) (h : c.lloc = .ready)
      (hr : c.sh.running = true) :
      Step c { c with lloc := .toFill }
  | l_exit (c : Config) (h : c.lloc = .ready) (hr : c.sh.running = false) :
      Step c { c with lloc := .lDone }
  | l_stop_acq (c : Config) (h : c.lloc = .toStop) (hl : c.sh.lock = none) :
      Step c { c with
        lloc := .inStop
        sh := { c.sh with lock := some .listener } }
  | l_stop_clear (c : Config) (h : c.lloc = .inStop) :
      Step c { c with
        lloc := .stopRel
        sh := { c.sh with running := false } }
  | l_stop_rel (c : Config) (h : c.lloc = .stopRel) :
      Step c { c with lloc := .lDone, sh := { c.sh with lock := none } }
  | l_handler_acq (c : Config) (k : String) (h : c.lloc = .toHandler k)
      (hl : c.sh.lock = none) :
      Step c { c with
        lloc := .inHandler k
        sh := { c.sh with lock := some .listener } }
  | l_handler_run (c : Config) (k : String) (h : c.lloc = .inHandler k) :
      Step c { c with lloc := .handlerRel, sh := applyKey k c.sh }
  | l_handler_rel (c : Config) (h : c.lloc = .handlerRel) :
      Step c { c with lloc := .toFill, sh := { c.sh with lock := none } }
  | l_fill_acq (c : Config) (h : c.lloc = .toFill) (hl : c.sh.lock = none) :
      Step c { c with
        lloc := .fillA
        sh := { c.sh with lock := some .listener } }
  | l_fill_speed (c : Config) (h : c.lloc = .fillA) :
      Step c { c with
        lloc := .fillB
        sh := { c.sh with msg_speed := c.sh.speed } }
  | l_fill_steering (c : Config) (h : c.lloc = .fillB) :
      Step c { c with
        lloc := .fillRel
        sh := { c.sh with
          msg_steering_angle := c.sh.steering_angle
          committed := (c.sh.speed, c.sh.steering_angle)
          fills := (c.sh.speed, c.sh.steering_angle) :: c.sh.fills } }
  | l_fill_rel (c : Config) (h : c.lloc = .fillRel) :
      Step c { c with lloc := .ready, sh := { c.sh with lock := none } }
  | p_exit (c : Config) (h : c.ploc = .pReady) (hr : c.sh.running = false) :
      Step c { c with ploc := .pDone }
  | p_acq (c : Config) (h : c.ploc = .pReady) (hr : c.sh.running = true)
      (hl : c.sh.lock = none) :
      Step c { c with
        ploc := .pAcqd
        sh := { c.sh with lock := some .publisher } }
  | p_ret (c : Config) (h : c.ploc = .pAcqd) :
      Step c { c with ploc := .pWrite1, sh := { c.sh with lock := none } }
  | p_write_speed (c : Config) (h : c.ploc = .pWrite1) :
      Step c { c with ploc := .pWrite2, reg_speed := c.sh.msg_speed }
  | p_write_steering (c : Config) (h : c.ploc = .pWrite2) :
      Step c { c with
        ploc := .pReady
        reg_steering_angle := c.sh.msg_steering_angle }

/-- Initial configuration: the freshly constructed controller, the lock
free, both threads at the top of their loops. -/
def initConfig : Config :=
  { sh := { speed := 0, steering_angle := 0, msg_speed := 0,
            msg_steering_angle := 0, running := true, lock := none,
            committed := (0, 0), fills := [(0, 0)] }
    lloc := .ready
    ploc := .pReady
    reg_speed := 0
    reg_steering_angle := 0 }

/-- Reachable configurations of the interleaved system. -/
def Reach (c : Config) : Prop := Relation.ReflTransGen Step initConfig c

/-- Listener program points at which the listener holds the lock. -/
def listenerHolds : LLoc → Bool
  | .inStop | .stopRel | .inHandler _ | .handlerRel
  | .fillA | .fillB | .fillRel => true
  | _ => false

/-- Publisher program points at which the publisher holds the lock: only
the inside of `get_control_cmd`; the field reads of `writer.write` are
performed after the release. -/
def publisherHolds : PLoc → Bool
  | .pAcqd => true
  | _ => false

@[simp] lemma applyKey_msg_speed (k : String) (sh : Shared) :
    (applyKey k sh).msg_speed = sh.msg_speed := by
  unfold applyKey; split_ifs <;> rfl

@[simp] lemma applyKey_msg_steering_angle (k : String) (sh : Shared) :
    (applyKey k sh).msg_steering_angle = sh.msg_steering_angle := by
  unfold applyKey; split_ifs <;> rfl

@[simp] lemma applyKey_committed (k : String) (sh : Shared) :
    (applyKey k sh).committed = sh.committed := by
  unfold applyKey; split_ifs <;> rfl

@[simp] lemma applyKey_lock (k : String) (sh : Shared) :
    (applyKey k sh).lock = sh.lock := by
  unfold applyKey; split_ifs <;> rfl

@[simp] lemma applyKey_running (k : String) (sh : Shared) :
    (applyKey k sh).running = sh.running := by
  unfold applyKey; split_ifs <;> rfl

@[simp] lemma applyKey_fills (k : String) (sh : Shared) :
    (applyKey k sh).fills = sh.fills := by
  unfold applyKey; split_ifs <;> rfl

lemma applyKey_w (sh : Shared) :
    applyKey "w" sh = { sh with speed := sh.speed + SPEED_DELTA } := rfl

lemma applyKey_a (sh : Shared) :
    applyKey "a" sh =
      { sh with steering_angle := sh.steering_angle + STEERING_ANGLE_DELTA } :=
  rfl

/-- Inductive invariant of the interleaved system: the lock agrees with the
two threads' program points, the message pair equals the ghost `committed`
pair except inside the listener's half-filled window, and the last
committed pair is on the ghost log of completed fills. -/
def Inv (c : Config) : Prop :=
  (listenerHolds c.lloc = true ↔ c.sh.lock = some Tid.listener) ∧
  (publisherHolds c.ploc = true ↔ c.sh.lock = some Tid.publisher) ∧
  (c.lloc ≠ LLoc.fillB →
    (c.sh.msg_speed, c.sh.msg_steering_angle) = c.sh.committed) ∧
  (c.lloc = LLoc.fillB →
    c.sh.msg_speed = c.sh.speed ∧
    c.sh.msg_steering_angle = c.sh.committed.2) ∧
  c.sh.committed ∈ c.sh.fills

lemma inv_init : Inv initConfig := by
  simp [Inv, initConfig, listenerHolds, publisherHolds]

/-- The invariant is preserved by every interleaved step. -/
lemma inv_step {c c' : Config} (hI : Inv c) (hs : Step c c') : Inv c' := by
  obtain ⟨hA, hB, hC, hD, hG⟩ := hI
  cases hs with
  | l_read_esc h hr =>
    refine ⟨?_, ?_, ?_, ?_, ?_⟩ <;> simp_all [listenerHolds, publisherHolds]
  | l_read_mapped k h hr hk =>
    refine ⟨?_, ?_, ?_, ?_, ?_⟩ <;> simp_all [listenerHolds, publisherHolds]
  | l_read_other h hr =>
    refine ⟨?_, ?_, ?_, ?_, ?_⟩ <;> simp_all [listenerHolds, publisherHolds]
  | l_exit h hr =>
    refine ⟨?_, ?_, ?_, ?_, ?_⟩ <;> simp_all [listenerHolds, publisherHolds]
  | l_stop_acq h hl =>
    refine ⟨?_, ?_, ?_, ?_, ?_⟩ <;> simp_all [listenerHolds, publisherHolds]
  | l_stop_clear h =>
    refine ⟨?_, ?_, ?_, ?_, ?_⟩ <;> simp_all [listenerHolds, publisherHolds]
  | l_stop_rel h =>
    refine ⟨?_, ?_, ?_, ?_, ?_⟩ <;> simp_all [listenerHolds, publisherHolds]
  | l_handler_acq k h hl =>
    refine ⟨?_, ?_, ?_, ?_, ?_⟩ <;> simp_all [listenerHolds, publisherHolds]
  | l_handler_run k h =>
    refine ⟨?_, ?_, ?_, ?_, ?_⟩ <;> simp_all [listenerHolds, publisherHolds]
  | l_handler_rel h =>
    refine ⟨?_, ?_, ?_, ?_, ?_⟩ <;> simp_all [listenerHolds, publisherHolds]
  | l_fill_acq h hl =>
    refine ⟨?_, ?_, ?_, ?_, ?_⟩ <;> simp_all [listenerHolds, publisherHolds]
  | l_fill_speed h =>
    have hlock : c.sh.lock = some Tid.listener := hA.mp (by rw [h]; rfl)
    have hc := hC (by rw [h]; simp)
    refine ⟨?_, ?_, ?_, ?_, ?_⟩
    · simp [listenerHolds, hlock]
    · exact hB
    · intro hne; exact absurd rfl hne
    · exact fun _ => ⟨rfl, congrArg Prod.snd hc⟩
    · exact hG
  | l_fill_steering h =>
    have hlock : c.sh.lock = some Tid.listener := hA.mp (by rw [h]; rfl)
    obtain ⟨hd1, hd2⟩ := hD h
    refine ⟨?_, ?_, ?_, ?_, ?_⟩
    · simp [listenerHolds, hlock]
    · exact hB
    · intro _
      show (c.sh.msg_speed, c.sh.steering_angle) =
        (c.sh.speed, c.sh.steering_angle)
      rw [hd1]
    · intro hf; simp at hf
    · exact List.mem_cons_self _ _
  | l_fill_rel h =>
    refine ⟨?_, ?_, ?_, ?_, ?_⟩ <;> simp_all [listenerHolds, publisherHolds]
  | p_exit h hr =>
    refine ⟨?_, ?_, ?_, ?_, ?_⟩ <;> simp_all [listenerHolds, publisherHolds]
  | p_acq h hr hl =>
    refine ⟨?_, ?_, ?_, ?_, ?_⟩ <;> simp_all [listenerHolds, publisherHolds]
  | p_ret h =>
    refine ⟨?_, ?_, ?_, ?_, ?_⟩ <;> simp_all [listenerHolds, publisherHolds]
  | p_write_speed h =>
    refine ⟨?_, ?_, ?_, ?_, ?_⟩ <;> simp_all [listenerHolds, publisherHolds]
  | p_write_steering h =>
    refine ⟨?_, ?_, ?_, ?_, ?_⟩ <;> simp_all [listenerHolds, publisherHolds]

/-- Every reachable configuration satisfies the invariant. -/
lemma reach_inv {c : Config} (h : Reach c) : Inv c := by
  induction h with
  | refl => exact inv_init
  | tail _ hstep ih => exact inv_step ih hstep

/-- The configuration at the end of the following interleaving: the
publisher snapshots the live message and reads `cmd.speed` (= 0) inside
`writer.write`, then the listener processes a `"w"` press (fill commits
`(1/10, 0)`) and an `"a"` press (fill commits `(1/10, 1)`), and only then
does the publisher read `cmd.steering_angle` (= 1).  The pair it publishes,
`(0, 1)`, was never the content of the message after any completed fill. -/
def tornConfig : Config :=
  { sh := { speed := 1 / 10, steering_angle := 1, msg_speed := 1 / 10,
            msg_steering_angle := 1, running := true, lock := none,
            committed := (1 / 10, 1),
            fills := [(1 / 10, 1), (1 / 10, 0), (0, 0)] }
    lloc := .ready
    ploc := .pReady
    reg_speed := 0
    reg_steering_angle := 1 }

end Threads

/-! ### Claim theorems -/

/-- **C1**, counterexample: `get_control_cmd` does not return a copy.  After
one `"w"` press, the reference it returns dereferences to different values
before and after a second `"w"` press: the returned message is mutated by
subsequent key presses. -/
theorem get_control_cmd_no_copy_counterexample :
    MsgRef.deref
        ((listen_keyboard initController [keyDown "w"]).get_control_cmd).1
        (listen_keyboard (listen_keyboard initController [keyDown "w"])
          [keyDown "w"]) ≠
      MsgRef.deref
        ((listen_keyboard initController [keyDown "w"]).get_control_cmd).1
        (listen_keyboard initController [keyDown "w"]) := by
  simp only [MsgRef.deref, KeyboardController.get_control_cmd]
  rw [listen_keyboard_cons_mapped (k := "w") rfl rfl,
    listen_keyboard_cons_mapped (k := "w") rfl rfl]
  norm_num [listen_keyboard, initController, KeyboardController.move_forward,
    KeyboardController.fill_control_cmd, SPEED_DELTA,
    ControlCommand.mk.injEq]

/-- **C1** (amended): `get_control_cmd` returns, under the lock, a reference
to the single live `ControlCommand` message, not a copy.  The call has no
side effects and always succeeds, and at call time the referenced value
equals the message as last filled; but the reference tracks the live message
in every later state, so subsequent key presses mutate the returned
message. -/
theorem get_control_cmd_returns_live_reference (s : KeyboardController) :
    (s.get_control_cmd).2 = s ∧
    MsgRef.deref (s.get_control_cmd).1 s = s.control_cmd_msg ∧
    ∀ t : KeyboardController,
      MsgRef.deref (s.get_control_cmd).1 t = t.control_cmd_msg :=
  ⟨rfl, rfl, fun _ => rfl⟩

/-- **C2**: once a key-down of `"esc"` is processed, the run flag is false
and the events after it are never applied: the whole run equals the run that
stops at the `"esc"` event. -/
theorem esc_stops_listener (es1 es2 : List KeyEvent) :
    (listen_keyboard initController
        (es1 ++ keyDown "esc" :: es2)).running = false ∧
    listen_keyboard initController (es1 ++ keyDown "esc" :: es2) =
      listen_keyboard initController (es1 ++ [keyDown "esc"]) := by
  rw [listen_keyboard_append, listen_keyboard_append]
  cases hr : (listen_keyboard initController es1).running with
  | true =>
    simp only [listen_keyboard, hr, if_true, listen_body_esc]
    exact ⟨rfl, trivial⟩
  | false =>
    simp [listen_keyboard_stopped hr, hr]

/-- **C3**: `n` presses of `"w"` from the initial state give
`speed = n * SPEED_DELTA` and `n` presses of `"s"` give
`speed = -(n * SPEED_DELTA)` (exactly, in the rational embedding of the
float arithmetic), steering untouched in both runs; each single press moves
`speed` by exactly `±SPEED_DELTA` and leaves `steering_angle` unchanged. -/
theorem w_s_presses_speed (n : ℕ) :
    (listen_keyboard initController
        (List.replicate n (keyDown "w"))).speed = n * SPEED_DELTA ∧
    (listen_keyboard initController
        (List.replicate n (keyDown "w"))).steering_angle = 0 ∧
    (listen_keyboard initController
        (List.replicate n (keyDown "s"))).speed = -(n * SPEED_DELTA) ∧
    (listen_keyboard initController
        (List.replicate n (keyDown "s"))).steering_angle = 0 ∧
    (∀ s : KeyboardController,
      s.move_forward.speed = s.speed + SPEED_DELTA ∧
      s.move_forward.steering_angle = s.steering_angle ∧
      s.move_backward.speed = s.speed - SPEED_DELTA ∧
      s.move_backward.steering_angle = s.steering_angle) := by
  obtain ⟨hw1, hw2, _⟩ :=
    listen_keyboard_replicate (k := "w") rfl SPEED_DELTA 0
      move_forward_fields n initController rfl
  obtain ⟨hs1, hs2, _⟩ :=
    listen_keyboard_replicate (k := "s") rfl (-SPEED_DELTA) 0
      move_backward_fields n initController rfl
  refine ⟨?_, ?_, ?_, ?_, fun s => ⟨rfl, rfl, rfl, rfl⟩⟩
  · rw [hw1]; simp [initController]
  · rw [hw2]; simp [initController]
  · rw [hs1]; simp [initController]
  · rw [hs2]; simp [initController]

/-- **C4**: each `"a"` press adds exactly `STEERING_ANGLE_DELTA = 1` to the
steering angle and each `"d"` press subtracts it, `speed` untouched; the
accumulated value after `n` presses is the unclamped linear value
`±n * STEERING_ANGLE_DELTA`, unbounded in `n`. -/
theorem a_d_presses_steering (n : ℕ) :
    (listen_keyboard initController
        (List.replicate n (keyDown "a"))).steering_angle =
      n * STEERING_ANGLE_DELTA ∧
    (listen_keyboard initController
        (List.replicate n (keyDown "a"))).speed = 0 ∧
    (listen_keyboard initController
        (List.replicate n (keyDown "d"))).steering_angle =
      -(n * STEERING_ANGLE_DELTA) ∧
    (listen_keyboard initController
        (List.replicate n (keyDown "d"))).speed = 0 ∧
    (∀ s : KeyboardController,
      s.turn_left.steering_angle = s.steering_angle + STEERING_ANGLE_DELTA ∧
      s.turn_left.speed = s.speed ∧
      s.turn_right.steering_angle = s.steering_angle - STEERING_ANGLE_DELTA ∧
      s.turn_right.speed = s.speed) := by
  obtain ⟨ha1, ha2, _⟩ :=
    listen_keyboard_replicate (k := "a") rfl 0 STEERING_ANGLE_DELTA
      turn_left_fields n initController rfl
  obtain ⟨hd1, hd2, _⟩ :=
    listen_keyboard_replicate (k := "d") rfl 0 (-STEERING_ANGLE_DELTA)
      turn_right_fields n initController rfl
  refine ⟨?_, ?_, ?_, ?_, fun s => ⟨rfl, rfl, rfl, rfl⟩⟩
  · rw [ha2]; simp [initController]
  · rw [ha1]; simp [initController]
  · rw [hd2]; simp [initController]
  · rw [hd1]; simp [initController]

/-- **C5**: one iteration of the event loop stops on an `"esc"` key-down
(run flag cleared, loop broken), applies the mapped handler followed by
`fill_control_cmd` on `"w"`/`"s"`/`"a"`/`"d"` key-downs, and after any run of
the loop from the initial state the published message fields equal the
accumulator's current `(speed, steering_angle)`. -/
theorem listener_step_semantics :
    (∀ s : KeyboardController,
      listen_body s (keyDown "esc") = (s.stop, false) ∧
      s.stop.running = false) ∧
    (∀ s : KeyboardController,
      listen_body s (keyDown "w") = (s.move_forward.fill_control_cmd, true) ∧
      listen_body s (keyDown "s") = (s.move_backward.fill_control_cmd, true) ∧
      listen_body s (keyDown "a") = (s.turn_left.fill_control_cmd, true) ∧
      listen_body s (keyDown "d") = (s.turn_right.fill_control_cmd, true)) ∧
    (∀ es : List KeyEvent,
      (listen_keyboard initController es).control_cmd_msg.speed =
        (listen_keyboard initController es).speed ∧
      (listen_keyboard initController es).control_cmd_msg.steering_angle =
        (listen_keyboard initController es).steering_angle) :=
  ⟨fun _ => ⟨rfl, rfl⟩, fun _ => ⟨rfl, rfl, rfl, rfl⟩,
    fun es => listen_keyboard_msgFresh initController_msgFresh es⟩

/-- **C6**: the scenario `"w"`, `"w"`, `"a"`, `"s"` from the initial state
ends with `speed = 1/10` (the exact value of one `SPEED_DELTA`) and
`steering_angle = 1`. -/
theorem scenario_w_w_a_s :
    (listen_keyboard initController
        [keyDown "w", keyDown "w", keyDown "a", keyDown "s"]).speed = 1 / 10 ∧
    (listen_keyboard initController
        [keyDown "w", keyDown "w", keyDown "a", keyDown "s"]).steering_angle
      = 1 := by
  rw [listen_keyboard_cons_mapped (k := "w") rfl rfl,
    listen_keyboard_cons_mapped (k := "w") rfl rfl,
    listen_keyboard_cons_mapped (k := "a") rfl rfl,
    listen_keyboard_cons_mapped (k := "s") rfl rfl]
  norm_num [listen_keyboard, initController, KeyboardController.move_forward,
    KeyboardController.move_backward, KeyboardController.turn_left,
    KeyboardController.fill_control_cmd, SPEED_DELTA, STEERING_ANGLE_DELTA]

/-- **C7**: if the first processed key-down is `"esc"`, the controller is
exactly the initial state with the run flag cleared: `speed` and
`steering_angle` remain `0`, `running` is false, whatever events follow. -/
theorem scenario_immediate_esc (es : List KeyEvent) :
    listen_keyboard initController (keyDown "esc" :: es) =
      initController.stop ∧
    initController.stop.speed = 0 ∧
    initController.stop.steering_angle = 0 ∧
    initController.stop.running = false := by
  have hr : initController.running = true := rfl
  refine ⟨?_, rfl, rfl, rfl⟩
  simp only [listen_keyboard, hr, if_true, listen_body_esc]

/-- **C9**: a key-up event, or a key-down event whose name is outside
`{"w", "s", "a", "d", "esc"}`, leaves `speed`, `steering_angle` and the run
flag unchanged; the iteration only refreshes the message via
`fill_control_cmd` and continues the loop. -/
theorem unmapped_key_frame (s : KeyboardController) (e : KeyEvent)
    (h : e.event_type = KeyEventType.key_up ∨
      (e.event_type = KeyEventType.key_down ∧
        e.name ∉ (["w", "s", "a", "d", "esc"] : List String))) :
    listen_body s e = (s.fill_control_cmd, true) ∧
    (listen_body s e).1.speed = s.speed ∧
    (listen_body s e).1.steering_angle = s.steering_angle ∧
    (listen_body s e).1.running = s.running := by
  have hbody : listen_body s e = (s.fill_control_cmd, true) := by
    rcases h with h | ⟨hd, hn⟩
    · have hne : e.event_type ≠ KeyEventType.key_down := by
        rw [h]; intro hc; cases hc
      simp [listen_body, hne]
    · simp only [List.mem_cons, List.not_mem_nil, or_false, not_or] at hn
      obtain ⟨h1, h2, h3, h4, h5⟩ := hn
      simp [listen_body, hd, h5, control_map, h1, h2, h3, h4]
  rw [hbody]
  exact ⟨rfl, rfl, rfl, rfl⟩

/-- Witness for **C9** at the concrete unmapped key-down `"x"` on the
initial state. -/
theorem unmapped_key_frame_witness :
    ((⟨KeyEventType.key_down, "x"⟩ : KeyEvent).event_type =
        KeyEventType.key_up ∨
      ((⟨KeyEventType.key_down, "x"⟩ : KeyEvent).event_type =
          KeyEventType.key_down ∧
        (⟨KeyEventType.key_down, "x"⟩ : KeyEvent).name ∉
          (["w", "s", "a", "d", "esc"] : List String))) ∧
    (listen_body initController ⟨KeyEventType.key_down, "x"⟩ =
        (initController.fill_control_cmd, true) ∧
      (listen_body initController ⟨KeyEventType.key_down, "x"⟩).1.speed =
        initController.speed ∧
      (listen_body initController
          ⟨KeyEventType.key_down, "x"⟩).1.steering_angle =
        initController.steering_angle ∧
      (listen_body initController ⟨KeyEventType.key_down, "x"⟩).1.running =
        initController.running) :=
  ⟨Or.inr ⟨rfl, by decide⟩,
    unmapped_key_frame initController ⟨KeyEventType.key_down, "x"⟩
      (Or.inr ⟨rfl, by decide⟩)⟩

/-- **C10**: before any keyboard event is processed, `get_control_cmd`
returns the message with both fields at their protobuf default `0`, and the
freshly constructed controller has `speed = 0`, `steering_angle = 0` and the
run flag set. -/
theorem initial_state_defaults :
    MsgRef.deref (initController.get_control_cmd).1 initController =
      { speed := 0, steering_angle := 0 } ∧
    (initController.get_control_cmd).2 = initController ∧
    initController.speed = 0 ∧
    initController.steering_angle = 0 ∧
    initController.running = true :=
  ⟨rfl, rfl, rfl, rfl, rfl⟩

/-- **C8**, counterexample: the published pair can be torn.  In the faithful
model — where `get_control_cmd` only returns the live-message reference
under the lock and `writer.write(cmd)` reads `cmd.speed` and
`cmd.steering_angle` after the lock is released — the explicit interleaving
reaching `tornConfig` ends a publish cycle with the pair `(0, 1)`, which is
on no entry of the ghost log of completed fills: the publisher observed
`speed` before and `steering_angle` after two complete lock-protected
fills, so the task does observe a partially updated pair. -/
theorem torn_published_pair_counterexample :
    Threads.Reach Threads.tornConfig ∧
    Threads.tornConfig.ploc = Threads.PLoc.pReady ∧
    (Threads.tornConfig.reg_speed, Threads.tornConfig.reg_steering_angle) ∉
      Threads.tornConfig.sh.fills := by
  refine ⟨?_, rfl, ?_⟩
  · have h1 := Relation.ReflTransGen.tail (Relation.ReflTransGen.refl)
      (Threads.Step.p_acq Threads.initConfig rfl rfl rfl)
    have h2 := h1.tail (Threads.Step.p_ret _ rfl)
    have h3 := h2.tail (Threads.Step.p_write_speed _ rfl)
    have h4 := h3.tail
      (Threads.Step.l_read_mapped _ "w" rfl rfl (by decide))
    have h5 := h4.tail (Threads.Step.l_handler_acq _ "w" rfl rfl)
    have h6 := h5.tail (Threads.Step.l_handler_run _ "w" rfl)
    have h7 := h6.tail (Threads.Step.l_handler_rel _ rfl)
    have h8 := h7.tail (Threads.Step.l_fill_acq _ rfl rfl)
    have h9 := h8.tail (Threads.Step.l_fill_speed _ rfl)
    have h10 := h9.tail (Threads.Step.l_fill_steering _ rfl)
    have h11 := h10.tail (Threads.Step.l_fill_rel _ rfl)
    have h12 := h11.tail
      (Threads.Step.l_read_mapped _ "a" rfl rfl (by decide))
    have h13 := h12.tail (Threads.Step.l_handler_acq _ "a" rfl rfl)
    have h14 := h13.tail (Threads.Step.l_handler_run _ "a" rfl)
    have h15 := h14.tail (Threads.Step.l_handler_rel _ rfl)
    have h16 := h15.tail (Threads.Step.l_fill_acq _ rfl rfl)
    have h17 := h16.tail (Threads.Step.l_fill_speed _ rfl)
    have h18 := h17.tail (Threads.Step.l_fill_steering _ rfl)
    have h19 := h18.tail (Threads.Step.l_fill_rel _ rfl)
    have h20 := h19.tail (Threads.Step.p_write_steering _ rfl)
    convert h20 using 2 <;>
      simp only [Threads.tornConfig, Threads.initConfig, Threads.applyKey_w,
        Threads.applyKey_a] <;>
      norm_num [SPEED_DELTA, STEERING_ANGLE_DELTA]
  · norm_num [Threads.tornConfig, Prod.ext_iff]

/-- **C8** (amended): every read and write of the shared accumulator pair
and every write of the message is performed while the listener holds the
lock, the lock agrees with both threads' program points so the two
lock-protected regions are mutually exclusive, and while `get_control_cmd`
holds the lock the message always contains the whole pair written by a
single completed `fill_control_cmd` (initially the default pair) — but the
publish loop's field reads of the returned live-message reference happen
after the lock is released, and (per the counterexample) the pair actually
published can be torn. -/
theorem lock_discipline_unlocked_publish (c : Threads.Config)
    (hc : Threads.Reach c) :
    (∀ c', Threads.Step c c' →
      (c'.sh.speed ≠ c.sh.speed ∨
        c'.sh.steering_angle ≠ c.sh.steering_angle ∨
        c'.sh.msg_speed ≠ c.sh.msg_speed ∨
        c'.sh.msg_steering_angle ≠ c.sh.msg_steering_angle) →
      c.sh.lock = some Threads.Tid.listener) ∧
    (Threads.listenerHolds c.lloc = true ↔
      c.sh.lock = some Threads.Tid.listener) ∧
    (Threads.publisherHolds c.ploc = true ↔
      c.sh.lock = some Threads.Tid.publisher) ∧
    ¬(Threads.listenerHolds c.lloc = true ∧
      Threads.publisherHolds c.ploc = true) ∧
    (c.ploc = Threads.PLoc.pAcqd →
      (c.sh.msg_speed, c.sh.msg_steering_angle) = c.sh.committed ∧
      (c.sh.msg_speed, c.sh.msg_steering_angle) ∈ c.sh.fills) := by
  obtain ⟨hA, hB, hC, hD, hG⟩ := Threads.reach_inv hc
  refine ⟨?_, hA, hB, ?_, ?_⟩
  · intro c' hs hne
    cases hs <;>
      first
        | (simp at hne; done)
        | (rename_i h; exact hA.mp (by rw [h]; rfl))
  · rintro ⟨hl, hp⟩
    have h1 := hA.mp hl
    have h2 := hB.mp hp
    rw [h1] at h2
    simp at h2
  · intro hp
    have hlock := hB.mp (by rw [hp]; rfl)
    have hnf : c.lloc ≠ Threads.LLoc.fillB := by
      intro hf
      have h1 := hA.mp (by rw [hf]; rfl)
      rw [hlock] at h1
      simp at h1
    have hcc := hC hnf
    refine ⟨hcc, ?_⟩
    rw [hcc]
    exact hG

/-- Witness for the amended **C8** at the initial configuration, reachable
by the empty execution. -/
theorem lock_discipline_unlocked_publish_witness :
    Threads.Reach Threads.initConfig ∧
    ((∀ c', Threads.Step Threads.initConfig c' →
      (c'.sh.speed ≠ Threads.initConfig.sh.speed ∨
        c'.sh.steering_angle ≠ Threads.initConfig.sh.steering_angle ∨
        c'.sh.msg_speed ≠ Threads.initConfig.sh.msg_speed ∨
        c'.sh.msg_steering_angle ≠
          Threads.initConfig.sh.msg_steering_angle) →
      Threads.initConfig.sh.lock = some Threads.Tid.listener) ∧
    (Threads.listenerHolds Threads.initConfig.lloc = true ↔
      Threads.initConfig.sh.lock = some Threads.Tid.listener) ∧
    (Threads.publisherHolds Threads.initConfig.ploc = true ↔
      Threads.initConfig.sh.lock = some Threads.Tid.publisher) ∧
    ¬(Threads.listenerHolds Threads.initConfig.lloc = true ∧
      Threads.publisherHolds Threads.initConfig.ploc = true) ∧
    (Threads.initConfig.ploc = Threads.PLoc.pAcqd →
      (Threads.initConfig.sh.msg_speed,
        Threads.initConfig.sh.msg_steering_angle) =
        Threads.initConfig.sh.committed ∧
      (Threads.initConfig.sh.msg_speed,
        Threads.initConfig.sh.msg_steering_angle) ∈
        Threads.initConfig.sh.fills)) :=
  ⟨Relation.ReflTransGen.refl,
    lock_discipline_unlocked_publish Threads.initConfig
      Relation.ReflTransGen.refl⟩

end WhlCan
